import Mathlib

/-
Verification of tools/run_block.py: the spend-condition decoding and
CAT-template-matching pipeline.

The pipeline takes the output of executing a block's transaction generator
(an external execution engine), resolves each spent coin's puzzle and
solution, tests the puzzle against the CAT template, and for matched coins
re-executes the puzzle to extract an optional memo string, producing a list
of CAT records.

External collaborators (the CLVM execution engine `get_name_puzzle_conditions`,
the puzzle/solution resolver `get_puzzle_and_solution_for_coin`, and the
structural matcher `match_cat_puzzle`) are modelled as oracle inputs: an
`EngineResult` value describing, for one fixed block generator, what the
engine reported, and per-coin resolution outcomes.  The logic of
run_block.py itself (control flow, scanning, error propagation, hex and
UTF-8 handling) is embedded faithfully, including its Python error edges
(IndexError, AttributeError, UnicodeDecodeError), which are made explicit
as `Except` error values.
-/

namespace RunBlock

/-- A byte string (Python `bytes`): a list of values, each intended < 256. -/
abbrev Bytes := List Nat

/-- Lowercase hex digit for a value < 16 (Python's `bytes.hex` alphabet). -/
def hexDigit (n : Nat) : Char :=
  if n = 0 then '0' else if n = 1 then '1' else if n = 2 then '2'
  else if n = 3 then '3' else if n = 4 then '4' else if n = 5 then '5'
  else if n = 6 then '6' else if n = 7 then '7' else if n = 8 then '8'
  else if n = 9 then '9' else if n = 10 then 'a' else if n = 11 then 'b'
  else if n = 12 then 'c' else if n = 13 then 'd' else if n = 14 then 'e'
  else 'f'

/-- Character list of `bytes.hex()`: two lowercase hex characters per byte. -/
def hexChars (bs : Bytes) : List Char :=
  bs.foldr (fun b acc => hexDigit (b / 16 % 16) :: hexDigit (b % 16) :: acc) []

/-- Python `bytes.hex()`. -/
def hexEncode (bs : Bytes) : String :=
  String.mk (hexChars bs)

/-- Value of one hex character, `none` when the character is not a hex digit
(Python `bytes.fromhex` raises ValueError there). -/
def hexVal (c : Char) : Option Nat :=
  if c = '0' then some 0 else if c = '1' then some 1 else if c = '2' then some 2
  else if c = '3' then some 3 else if c = '4' then some 4 else if c = '5' then some 5
  else if c = '6' then some 6 else if c = '7' then some 7 else if c = '8' then some 8
  else if c = '9' then some 9 else if c = 'a' ∨ c = 'A' then some 10
  else if c = 'b' ∨ c = 'B' then some 11 else if c = 'c' ∨ c = 'C' then some 12
  else if c = 'd' ∨ c = 'D' then some 13 else if c = 'e' ∨ c = 'E' then some 14
  else if c = 'f' ∨ c = 'F' then some 15 else none

/-- Decode a list of hex characters two at a time; `none` on an odd count or a
non-hex character.  Models `bytes.fromhex` / `SerializedProgram.fromhex`. -/
def fromhexChars : List Char → Option Bytes
  | [] => some []
  | [_] => none
  | c1 :: c2 :: rest =>
    match hexVal c1, hexVal c2, fromhexChars rest with
    | some h, some l, some bs => some ((h * 16 + l) :: bs)
    | _, _, _ => none

/-- Python `bytes.fromhex` on a string. -/
def fromhex (s : String) : Option Bytes :=
  fromhexChars s.data

/-- True for a UTF-8 continuation byte (0x80..0xBF). -/
def utf8Cont (b : Nat) : Bool :=
  0x80 ≤ b && b ≤ 0xBF

/-- Strict UTF-8 decoding to a list of Unicode code points, exactly as Python's
strict utf-8 codec: rejects stray continuation bytes, overlong
encodings, surrogate code points and values above 0x10FFFF, returning `none`
(Python raises UnicodeDecodeError). -/
def utf8Decode : Bytes → Option (List Nat)
  | [] => some []
  | b :: rest =>
    if b ≤ 0x7F then
      (utf8Decode rest).map (b :: ·)
    else if b < 0xC2 then
      none
    else if b ≤ 0xDF then
      match rest with
      | b1 :: rest2 =>
        if utf8Cont b1 then
          (utf8Decode rest2).map (((b - 0xC0) * 0x40 + (b1 - 0x80)) :: ·)
        else none
      | [] => none
    else if b ≤ 0xEF then
      match rest with
      | b1 :: b2 :: rest2 =>
        if (if b = 0xE0 then 0xA0 ≤ b1 && b1 ≤ 0xBF
            else if b = 0xED then 0x80 ≤ b1 && b1 ≤ 0x9F
            else utf8Cont b1) && utf8Cont b2 then
          (utf8Decode rest2).map
            (((b - 0xE0) * 0x1000 + (b1 - 0x80) * 0x40 + (b2 - 0x80)) :: ·)
        else none
      | _ => none
    else if b ≤ 0xF4 then
      match rest with
      | b1 :: b2 :: b3 :: rest2 =>
        if (if b = 0xF0 then 0x90 ≤ b1 && b1 ≤ 0xBF
            else if b = 0xF4 then 0x80 ≤ b1 && b1 ≤ 0x8F
            else utf8Cont b1) && utf8Cont b2 && utf8Cont b3 then
          (utf8Decode rest2).map
            (((b - 0xF0) * 0x40000 + (b1 - 0x80) * 0x1000 + (b2 - 0x80) * 0x40
              + (b3 - 0x80)) :: ·)
        else none
      | _ => none
    else none

/-- Build a string from decoded code points (all code points produced by
`utf8Decode` are valid scalar values; `Char.ofNat` is exact on them). -/
def strOfCodepoints (cps : List Nat) : String :=
  String.mk (cps.map Char.ofNat)

/-- A value of the shape produced by `Program.as_python()`: a nested structure
of byte-string atoms and Python lists. -/
inductive PyVal where
  | bytes (bs : Bytes)
  | list (items : List PyVal)

/-- ConditionOpcode.CREATE_COIN: the single byte 51 (from the consensus
condition-opcode enumeration). -/
def createCoinOpcode : Bytes := [51]

/-- The 32-byte all-zero retirement sentinel, as the hex string the source
compares `condition[3][0].hex()` against. -/
def retirementHex : String :=
  "0000000000000000000000000000000000000000000000000000000000000000"

/-- Errors arising inside the memo-extraction scan, mirroring the Python
exceptions the loop body can raise. -/
inductive MemoError where
  /-- IndexError: subscripting position 0 of an empty list or empty bytes. -/
  | indexError
  /-- AttributeError: calling `hex` or `decode` on a Python list. -/
  | attrError
  /-- UnicodeDecodeError: the memo bytes are not valid UTF-8. -/
  | unicodeError
deriving DecidableEq, Repr

/-- Outcome of the loop body of the memo scan for one condition. -/
inductive ScanStep where
  /-- The condition is passed over; the loop continues with the next one. -/
  | skip
  /-- The condition qualifies; the loop breaks with this memo string. -/
  | found (memo : String)
  /-- The loop body raises; the exception propagates out of run_generator. -/
  | err (e : MemoError)
deriving Repr

/-- One iteration of the loop over `puzzle.run(solution).as_python()` in
run_generator (run_block.py lines 110-126): checks
`condition[0] == ConditionOpcode.CREATE_COIN and len(condition) >= 4`,
skips when `condition[3]` is not a list, compares `condition[3][0].hex()`
against the retirement sentinel, and on a match decodes `condition[3][1]`
as UTF-8 when present (breaking either way).  Subscripting an empty
sequence raises IndexError; `hex`/`decode` on a list raises
AttributeError; invalid UTF-8 raises UnicodeDecodeError. -/
def scanCondition (c : PyVal) : ScanStep :=
  match c with
  | .bytes [] => .err .indexError
  | .bytes (_ :: _) => .skip
  | .list [] => .err .indexError
  | .list (c0 :: args) =>
    let isCreateCoin : Bool :=
      match c0 with
      | .bytes b => b = createCoinOpcode
      | .list _ => false
    if isCreateCoin && args.length + 1 ≥ 4 then
      match args[2]? with
      | some (PyVal.bytes _) => .skip
      | some (PyVal.list []) => .err .indexError
      | some (PyVal.list (s0 :: stail)) =>
        match s0 with
        | .list _ => .err .attrError
        | .bytes sb =>
          if hexEncode sb = retirementHex then
            match stail with
            | [] => .found ""
            | m :: _ =>
              match m with
              | .list _ => .err .attrError
              | .bytes mb =>
                match utf8Decode mb with
                | some cps => .found (strOfCodepoints cps)
                | none => .err .unicodeError
          else .skip
      | none => .skip
    else .skip

/-- The memo-extraction scan of run_generator: iterate `scanCondition` over the
condition list produced by re-executing the matched puzzle, starting from
an empty memo; the first `found` breaks, an exception aborts, and falling off
the end leaves the memo empty. -/
def extract_memo : List PyVal → Except MemoError String
  | [] => .ok ""
  | c :: rest =>
    match scanCondition c with
    | .skip => extract_memo rest
    | .found m => .ok m
    | .err e => .error e

/-- A typed condition as produced by the execution engine: an opcode (the byte
value of the ConditionOpcode enumeration member) with raw byte-string
arguments (`vars`). -/
structure ConditionWithArgs where
  opcode : Nat
  vars : List Bytes
deriving DecidableEq, Repr

/-- An NPC (name, puzzle, conditions) record from the engine's result:
`conditions` is the per-opcode grouping, each entry an opcode key with the
ordered conditions declared under it. -/
structure NPC where
  coin_name : Bytes
  puzzle_hash : Bytes
  conditions : List (Nat × List ConditionWithArgs)
deriving DecidableEq, Repr

/-- A CAT record as appended by run_generator. -/
structure CAT where
  tail_hash : String
  memo : String
  npc : NPC
deriving DecidableEq, Repr

/-- Errors raised by get_puzzle_and_solution_for_coin (spec section 4.3). -/
inductive ResolveError where
  | coinNotFound
  | costExceeded
deriving DecidableEq, Repr

/-- Every exception the pipeline can terminate with, across all entry points. -/
inductive RunError where
  /-- ConsensusError carrying the engine's reported error code. -/
  | consensusError (code : Nat)
  /-- Failure of get_puzzle_and_solution_for_coin. -/
  | resolveError (e : ResolveError)
  /-- Exception raised inside the memo-extraction loop. -/
  | memoError (e : MemoError)
  /-- RuntimeError: transactions_generator of FullBlock is null. -/
  | missingGenerator
  /-- FileNotFoundError loading the per-height record in ref_list_to_args. -/
  | auxLookupError (height : Nat)
  /-- ValueError from SerializedProgram.fromhex on a malformed hex string. -/
  | hexError
deriving DecidableEq, Repr

/-- What the pipeline learns about one coin from
get_puzzle_and_solution_for_coin and the subsequent calls on the returned
puzzle: `puzzle_match` is the result of `match_cat_puzzle(puzzle)`
(`none` when not matched, otherwise the serialized byte values of the three
curried sub-programs, in order: module hash, tail hash, inner puzzle), and
`runOutput` is `puzzle.run(solution).as_python()` as a condition list. -/
structure ResolvedSpend where
  puzzle_match : Option (Bytes × Bytes × Bytes)
  runOutput : List PyVal

/-- Oracle for the external execution engine on one fixed block generator:
the error field and NPC list of `get_name_puzzle_conditions`, and the
outcome of `get_puzzle_and_solution_for_coin` (plus the pure calls on its
result) for each coin name. -/
structure EngineResult where
  npc_error : Option Nat
  npc_list : List NPC
  resolve : Bytes → Except ResolveError ResolvedSpend

/-- Per-NPC body of the loop in run_generator (run_block.py lines 100-128):
resolve the puzzle and solution for the coin, run `match_cat_puzzle`, and
for a match extract the memo and build the CAT record whose `tail_hash` is
`bytes(tail_hash).hex()[2:]`.  Returns `none` for a coin whose puzzle does
not match (no record appended). -/
def processNPC (er : EngineResult) (npc : NPC) : Except RunError (Option CAT) :=
  match er.resolve npc.coin_name with
  | .error e => .error (.resolveError e)
  | .ok rs =>
    match rs.puzzle_match with
    | none => .ok none
    | some (_, tail_hash, _) =>
      match extract_memo rs.runOutput with
      | .error e => .error (.memoError e)
      | .ok memo =>
        .ok (some { tail_hash := (hexEncode tail_hash).drop 2, memo := memo, npc := npc })

/-- The loop of run_generator over the NPC list, accumulating CAT records in
order; the first exception aborts the whole run. -/
def runNPCs (er : EngineResult) : List NPC → Except RunError (List CAT)
  | [] => .ok []
  | npc :: rest =>
    match processNPC er npc with
    | .error e => .error e
    | .ok none => runNPCs er rest
    | .ok (some cat) => (runNPCs er rest).map (cat :: ·)

/-- run_generator (run_block.py lines 89-130): raise ConsensusError when the
engine result carries an error code, otherwise process every NPC in order. -/
def run_generator (er : EngineResult) : Except RunError (List CAT) :=
  match er.npc_error with
  | some code => .error (.consensusError code)
  | none => runNPCs er er.npc_list

/-- A serialized program, as raw bytes. -/
abbrev SerializedProg := Bytes

/-- A GeneratorArg: block height paired with the referenced serialized
program. -/
abbrev GeneratorArg := Nat × SerializedProg

/-- A BlockGenerator: the generator program with its auxiliary reference
programs. -/
abbrev BlockGeneratorV := SerializedProg × List GeneratorArg

/-- The store of per-height persisted records read by ref_list_to_args
(the height.json files): `none` models a missing record (FileNotFoundError). -/
abbrev RefStore := Nat → Option SerializedProg

/-- ref_list_to_args (run_block.py lines 133-140): load the referenced
program for each height, in order, failing on the first height whose
record is absent. -/
def ref_list_to_args (store : RefStore) : List Nat → Except RunError (List GeneratorArg)
  | [] => .ok []
  | height :: rest =>
    match store height with
    | none => .error (.auxLookupError height)
    | some prog => (ref_list_to_args store rest).map ((height, prog) :: ·)

/-- A FullBlock restricted to the two fields the tool reads. -/
structure FullBlock where
  transactions_generator : Option SerializedProg
  transactions_generator_ref_list : List Nat

/-- The execution engine as a function of the assembled block generator;
closes over the consensus constants (MAX_BLOCK_COST_CLVM, COST_PER_BYTE). -/
abbrev Engine := BlockGeneratorV → EngineResult

/-- run_full_block (run_block.py lines 143-148): load the reference list
first, then fail when the block has no transactions_generator, else run. -/
def run_full_block (engine : Engine) (store : RefStore) (block : FullBlock) :
    Except RunError (List CAT) :=
  match ref_list_to_args store block.transactions_generator_ref_list with
  | .error e => .error e
  | .ok args =>
    match block.transactions_generator with
    | none => .error .missingGenerator
    | some g => run_generator (engine (g, args))

/-- run_generator_with_args (run_block.py lines 151-158): a falsy generator
hex value (JSON null or the empty string) returns the empty list without
executing; otherwise parse the hex and run.  The hex argument is an
`Option String` because run_json_block_file passes the raw JSON field,
which may be null. -/
def run_generator_with_args (engine : Engine) (generator_program_hex : Option String)
    (generator_args : List GeneratorArg) : Except RunError (List CAT) :=
  match generator_program_hex with
  | none => .ok []
  | some s =>
    if s = "" then .ok []
    else
      match fromhex s with
      | none => .error .hexError
      | some prog => run_generator (engine (prog, generator_args))

/-- run_json_block_file (run_block.py lines 168-175), after JSON parsing:
read the ref list, load the auxiliary programs, then delegate to
run_generator_with_args.  Returns the CAT list whose JSON rendering the
tool prints. -/
def run_json_block_file (engine : Engine) (store : RefStore) (block_generator_hex : Option String)
    (ref_list : List Nat) : Except RunError (List CAT) :=
  match ref_list_to_args store ref_list with
  | .error e => .error e
  | .ok args => run_generator_with_args engine block_generator_hex args

/-- Name of a ConditionOpcode member, from the consensus enumeration
(condition_opcodes.py); used only for JSON rendering. -/
def opcodeName (op : Nat) : String :=
  if op = 48 then "UNKNOWN"
  else if op = 49 then "AGG_SIG_UNSAFE"
  else if op = 50 then "AGG_SIG_ME"
  else if op = 51 then "CREATE_COIN"
  else if op = 52 then "RESERVE_FEE"
  else if op = 60 then "CREATE_COIN_ANNOUNCEMENT"
  else if op = 61 then "ASSERT_COIN_ANNOUNCEMENT"
  else if op = 62 then "CREATE_PUZZLE_ANNOUNCEMENT"
  else if op = 63 then "ASSERT_PUZZLE_ANNOUNCEMENT"
  else if op = 70 then "ASSERT_MY_COIN_ID"
  else if op = 71 then "ASSERT_MY_PARENT_ID"
  else if op = 72 then "ASSERT_MY_PUZZLEHASH"
  else if op = 73 then "ASSERT_MY_AMOUNT"
  else if op = 80 then "ASSERT_SECONDS_RELATIVE"
  else if op = 81 then "ASSERT_SECONDS_ABSOLUTE"
  else if op = 82 then "ASSERT_HEIGHT_RELATIVE"
  else if op = 83 then "ASSERT_HEIGHT_ABSOLUTE"
  else "UNKNOWN"

/-- JSON form of one ConditionWithArgs (condition_with_args_to_dict). -/
structure CondDict where
  condition_opcode : String
  arguments : List String
deriving DecidableEq, Repr

/-- condition_with_args_to_dict (run_block.py lines 69-73). -/
def condition_with_args_to_dict (cwa : ConditionWithArgs) : CondDict :=
  { condition_opcode := opcodeName cwa.opcode, arguments := cwa.vars.map hexEncode }

/-- condition_list_to_dict (run_block.py lines 76-78): asserts that every
condition in the group carries the group's opcode, then serializes each;
`none` models the AssertionError. -/
def condition_list_to_dict (condition_list : Nat × List ConditionWithArgs) :
    Option (List CondDict) :=
  if condition_list.2.all (fun cwa => condition_list.1 = cwa.opcode) then
    some (condition_list.2.map condition_with_args_to_dict)
  else none

/-- JSON form of one opcode group inside an NPC. -/
structure CondGroupDict where
  condition_type : String
  conditions : List CondDict
deriving DecidableEq, Repr

/-- JSON form of an NPC (npc_to_dict). -/
structure NpcDict where
  coin_name : String
  conditions : List CondGroupDict
  puzzle_hash : String
deriving DecidableEq, Repr

/-- Sequence a list of optional values, failing when any is `none` (the first
AssertionError raised inside a list comprehension aborts it). -/
def optList {α : Type} : List (Option α) → Option (List α)
  | [] => some []
  | none :: _ => none
  | some a :: rest => (optList rest).map (a :: ·)

/-- npc_to_dict (run_block.py lines 81-86); `none` when the grouping
assertion in condition_list_to_dict fails for some group. -/
def npc_to_dict (npc : NPC) : Option NpcDict :=
  (optList (npc.conditions.map (fun c =>
    (condition_list_to_dict c).map
      (fun ds => { condition_type := opcodeName c.1, conditions := ds })))).map
    (fun groups =>
      { coin_name := hexEncode npc.coin_name, conditions := groups,
        puzzle_hash := hexEncode npc.puzzle_hash })

/-- JSON form of a CAT record (CAT.cat_to_dict). -/
structure CatDict where
  tail_hash : String
  memo : String
  npc : NpcDict
deriving DecidableEq, Repr

/-- CAT.cat_to_dict (run_block.py lines 63-64); `none` when serializing the
inner NPC trips the grouping assertion. -/
def cat_to_dict (cat : CAT) : Option CatDict :=
  (npc_to_dict cat.npc).map
    (fun nd => { tail_hash := cat.tail_hash, memo := cat.memo, npc := nd })

/-- The 32-byte all-zero retirement sentinel as a byte string. -/
def retirementBytes : Bytes := List.replicate 32 0

/-- True when the byte atom sitting at the sentinel position of a condition
(first element of the list-typed fourth argument) consists of genuine
bytes, each below 256; every value produced by the CLVM layer satisfies
this, and it is the hypothesis under which the hex-string comparison in
the source coincides with byte-string equality. -/
def sentinelBytesWf (c : PyVal) : Bool :=
  match c with
  | .list (_ :: args) =>
    match args[2]? with
    | some (PyVal.list (PyVal.bytes sb :: _)) => sb.all (· < 256)
    | _ => true
  | _ => true

/-- Stated from the specification: a condition qualifies for memo extraction
when it is a CREATE_COIN condition whose argument list has at least four
elements, whose fourth element is a list (not a byte string) with first
element equal to the 32-byte all-zero retirement sentinel. -/
def qualifiesSpec (c : PyVal) : Bool :=
  match c with
  | .list (.bytes op :: args) =>
    op = createCoinOpcode && args.length + 1 ≥ 4 &&
      (match args[2]? with
       | some (PyVal.list (PyVal.bytes s :: _)) => s = retirementBytes
       | _ => false)
  | _ => false

/-- Stated from the specification: the memo carried by a qualifying
condition; if the fourth element has a second element the memo is its
UTF-8 decoding, otherwise the empty string. -/
def memoOfSpec (c : PyVal) : Option String :=
  match c with
  | .list (_ :: args) =>
    match args[2]? with
    | some (PyVal.list l) =>
      match l[1]? with
      | none => some ""
      | some (PyVal.bytes mb) => (utf8Decode mb).map strOfCodepoints
      | some (PyVal.list _) => none
    | _ => none
  | _ => none

/-- Stated from the specification: the memo of a condition list is taken from
the first qualifying condition (later duplicates ignored), and is the
empty string when no condition qualifies. -/
def memo_spec (conds : List PyVal) : Option String :=
  match conds.find? qualifiesSpec with
  | none => some ""
  | some c => memoOfSpec c

/-- Whether an NPC's coin resolves to a puzzle matched by the CAT template. -/
def matchedB (er : EngineResult) (npc : NPC) : Bool :=
  match er.resolve npc.coin_name with
  | .ok rs => rs.puzzle_match.isSome
  | .error _ => false

/-- The grouping invariant of the NPC data model (spec section 3): every
condition in a group carries the group's opcode key. -/
def wellGrouped (npc : NPC) : Bool :=
  npc.conditions.all (fun g => g.2.all (fun cwa => cwa.opcode = g.1))

/-- Two per-coin resolution outcomes agree up to the output of re-running the
puzzle of a non-matched coin: same errors, same template-match result, and
the same run output whenever the puzzle matched.  Coins differing only in
the run output of a non-matched puzzle are indistinguishable exactly when
the pipeline never re-executes a non-matched puzzle. -/
def resolveAgree : Except ResolveError ResolvedSpend → Except ResolveError ResolvedSpend → Prop
  | .ok rs, .ok rs2 =>
    rs.puzzle_match = rs2.puzzle_match ∧
      (rs.puzzle_match.isSome = true → rs.runOutput = rs2.runOutput)
  | .error e, .error e2 => e = e2
  | _, _ => False

/-- The retirement sentinel as raw bytes, for concrete test vectors. -/
def zeros32 : Bytes := List.replicate 32 0

/-- The UTF-8 bytes of the text hello. -/
def helloBytes : Bytes := [104, 101, 108, 108, 111]

/-- A CREATE_COIN condition whose fourth argument is a byte string, hence
skipped by the memo scan. -/
def condNonQual : PyVal :=
  .list [.bytes [51], .bytes [1], .bytes [2], .bytes [3]]

/-- A qualifying CREATE_COIN condition carrying the memo hello behind the
retirement sentinel. -/
def condQual : PyVal :=
  .list [.bytes [51], .bytes [1], .bytes [2], .list [.bytes zeros32, .bytes helloBytes]]

/-- Test condition list: one non-qualifying condition followed by a
qualifying one. -/
def condsW : List PyVal := [condNonQual, condQual]

/-- Test NPC with coin name 0x01. -/
def npcW1 : NPC := ⟨[1], [9], []⟩

/-- Test NPC with coin name 0x02. -/
def npcW2 : NPC := ⟨[2], [9], []⟩

/-- Test NPC carrying one well-grouped CREATE_COIN condition group. -/
def npcW3 : NPC := ⟨[1], [9], [(51, [⟨51, [[1, 2]]⟩])]⟩

/-- Resolution outcome for a matched CAT puzzle with tail-hash program bytes
0xabcd and a run output with no qualifying condition (empty memo). -/
def rsMatchW : ResolvedSpend := ⟨some ([7], [171, 205], [8]), []⟩

/-- Resolution outcome for an unmatched puzzle whose run output would raise
IndexError if the memo scan ever visited it. -/
def rsNoMatchA : ResolvedSpend := ⟨none, [.bytes []]⟩

/-- Resolution outcome for an unmatched puzzle with an empty run output. -/
def rsNoMatchB : ResolvedSpend := ⟨none, []⟩

/-- Resolution outcome for a matched puzzle whose memo payload bytes 0xff are
not valid UTF-8. -/
def rsBadMemo : ResolvedSpend :=
  ⟨some ([7], [3], [8]),
    [.list [.bytes [51], .bytes [1], .bytes [2], .list [.bytes zeros32, .bytes [255]]]]⟩

/-- Resolution outcome for a matched puzzle carrying the valid memo hello. -/
def rsGoodMemo : ResolvedSpend :=
  ⟨some ([7], [4], [8]),
    [.list [.bytes [51], .bytes [1], .bytes [2], .list [.bytes zeros32, .bytes helloBytes]]]⟩

/-- Engine oracle: one matched coin resolving to `rsMatchW`. -/
def erW : EngineResult := ⟨none, [npcW1], fun _ => .ok rsMatchW⟩

/-- Engine oracle whose execution result carries error code 17. -/
def erC3 : EngineResult := ⟨some 17, [npcW1], fun _ => .ok rsMatchW⟩

/-- Engine oracle with one matched coin and one unmatched coin whose run
output would raise if scanned. -/
def erW5 : EngineResult :=
  ⟨none, [npcW1, npcW2], fun name => if name = [1] then .ok rsMatchW else .ok rsNoMatchA⟩

/-- Like `erW5` but with a different run output for the unmatched coin. -/
def erW5b : EngineResult :=
  ⟨none, [npcW1, npcW2], fun name => if name = [1] then .ok rsMatchW else .ok rsNoMatchB⟩

/-- Engine oracle: the first coin's memo payload is invalid UTF-8, the second
coin carries a valid memo. -/
def erC6 : EngineResult :=
  ⟨none, [npcW1, npcW2], fun name => if name = [1] then .ok rsBadMemo else .ok rsGoodMemo⟩

/-- Engine oracle whose single NPC carries a well-grouped condition group. -/
def erW7 : EngineResult := ⟨none, [npcW3], fun _ => .ok rsMatchW⟩

/-- Engine oracle whose coin resolution fails with CoinNotFound. -/
def erC8 : EngineResult := ⟨none, [npcW1], fun _ => .error ResolveError.coinNotFound⟩

/-- Test block with no transactions generator and no references. -/
def blockW : FullBlock := ⟨none, []⟩

/-- Reference store holding an empty program at every height. -/
def storeW : RefStore := fun _ => some []

/-- Reference store with no record at any height. -/
def storeMissing : RefStore := fun _ => none

/-- Engine function used where the engine is never actually consulted. -/
def engineW : Engine := fun _ => erW

end RunBlock

namespace RunBlock

lemma hexDigit_eq_zero (n : Nat) (hlt : n < 16) : hexDigit n = '0' ↔ n = 0 := by
  interval_cases n <;> decide

lemma hexChars_cons (b : Nat) (bs : Bytes) :
    hexChars (b :: bs) = hexDigit (b / 16 % 16) :: hexDigit (b % 16) :: hexChars bs := rfl

lemma hexChars_eq_zeros (bs : Bytes) (n : Nat) (hwf : ∀ b ∈ bs, b < 256) :
    (hexChars bs = List.replicate (2 * n) '0') ↔ bs = List.replicate n 0 := by
  induction bs generalizing n with
  | nil =>
    simp only [hexChars, List.foldr_nil]
    constructor
    · intro h
      have h0 : (0 : Nat) = 2 * n := by
        simpa using congrArg List.length h
      have hn : n = 0 := by omega
      simp [hn]
    · intro h
      have h0 : (0 : Nat) = n := by
        simpa using congrArg List.length h
      simp [h0.symm]
  | cons b bs ih =>
    rw [hexChars_cons]
    cases n with
    | zero => simp
    | succ k =>
      have h2 : 2 * (k + 1) = (2 * k) + 1 + 1 := by omega
      rw [h2, List.replicate_succ, List.replicate_succ]
      have hb : b < 256 := hwf b (by simp)
      have hwf2 : ∀ x ∈ bs, x < 256 := fun x hx => hwf x (by simp [hx])
      constructor
      · intro h
        obtain ⟨hd1, hd2, htail⟩ := by
          simpa using h
        have hb1 : b / 16 % 16 = 0 := (hexDigit_eq_zero _ (by omega)).mp hd1
        have hb2 : b % 16 = 0 := (hexDigit_eq_zero _ (by omega)).mp hd2
        have hb0 : b = 0 := by omega
        rw [List.replicate_succ]
        simp only [List.cons.injEq]
        exact ⟨hb0, (ih k hwf2).mp htail⟩
      · intro h
        rw [List.replicate_succ] at h
        simp only [List.cons.injEq] at h
        obtain ⟨hb0, htail⟩ := h
        subst hb0
        simp only [List.cons.injEq]
        refine ⟨by simp [hexDigit], by simp [hexDigit], (ih k hwf2).mpr htail⟩

lemma hexEncode_eq_retirement (sb : Bytes) (hwf : ∀ b ∈ sb, b < 256) :
    (hexEncode sb = retirementHex) ↔ sb = retirementBytes := by
  have h1 : retirementHex = String.mk (List.replicate 64 '0') := by rfl
  rw [hexEncode, h1, retirementBytes]
  have h64 : (64 : Nat) = 2 * 32 := by norm_num
  rw [h64]
  constructor
  · intro h
    exact (hexChars_eq_zeros sb 32 hwf).mp (congrArg String.data h)
  · intro h
    exact congrArg String.mk ((hexChars_eq_zeros sb 32 hwf).mpr h)

end RunBlock

namespace RunBlock

lemma sentinelWf_all (op : PyVal) (args : List PyVal) (sb : Bytes) (stail : List PyVal)
    (hget : args[2]? = some (.list (.bytes sb :: stail)))
    (hwf : sentinelBytesWf (.list (op :: args)) = true) :
    ∀ b ∈ sb, b < 256 := by
  have h := hwf
  simp only [sentinelBytesWf, hget] at h
  intro b hb
  exact by simpa using (List.all_eq_true.mp h) b hb

lemma scanCondition_skip (c : PyVal) (hwf : sentinelBytesWf c = true)
    (h : scanCondition c = ScanStep.skip) : qualifiesSpec c = false := by
  cases c with
  | bytes bs =>
    cases bs with
    | nil => simp [scanCondition] at h
    | cons b bs => simp [qualifiesSpec]
  | list items =>
    cases items with
    | nil => simp [scanCondition] at h
    | cons c0 args =>
      cases c0 with
      | list l => simp [qualifiesSpec]
      | bytes op =>
        by_cases hop : op = createCoinOpcode
        · by_cases hlen : args.length + 1 ≥ 4
          · rcases hget : args[2]? with _ | val
            · simp [qualifiesSpec, hget]
            · cases val with
              | bytes vb => simp [qualifiesSpec, hget]
              | list l =>
                cases l with
                | nil => simp [scanCondition, hop, hlen, hget] at h
                | cons s0 stail =>
                  cases s0 with
                  | list sl => simp [scanCondition, hop, hlen, hget] at h
                  | bytes sb =>
                    by_cases hhex : hexEncode sb = retirementHex
                    · exfalso
                      cases stail with
                      | nil => simp [scanCondition, hop, hlen, hget, hhex] at h
                      | cons m0 mrest =>
                        cases m0 with
                        | list ml => simp [scanCondition, hop, hlen, hget, hhex] at h
                        | bytes mb =>
                          rcases hdec : utf8Decode mb with _ | cps <;>
                            simp [scanCondition, hop, hlen, hget, hhex, hdec] at h
                    · have hsb : sb ≠ retirementBytes := by
                        intro hsbeq
                        exact hhex
                          ((hexEncode_eq_retirement sb
                            (sentinelWf_all (.bytes op) args sb stail hget hwf)).mpr hsbeq)
                      simp [qualifiesSpec, hget, hsb]
          · simp [qualifiesSpec, hlen]
        · simp [qualifiesSpec, hop]

lemma scanCondition_found (c : PyVal) (m : String) (hwf : sentinelBytesWf c = true)
    (h : scanCondition c = ScanStep.found m) :
    qualifiesSpec c = true ∧ memoOfSpec c = some m := by
  cases c with
  | bytes bs => cases bs <;> simp [scanCondition] at h
  | list items =>
    cases items with
    | nil => simp [scanCondition] at h
    | cons c0 args =>
      cases c0 with
      | list l => simp [scanCondition] at h
      | bytes op =>
        by_cases hop : op = createCoinOpcode
        · by_cases hlen : args.length + 1 ≥ 4
          · rcases hget : args[2]? with _ | val
            · simp [scanCondition, hop, hlen, hget] at h
            · cases val with
              | bytes vb => simp [scanCondition, hop, hlen, hget] at h
              | list l =>
                cases l with
                | nil => simp [scanCondition, hop, hlen, hget] at h
                | cons s0 stail =>
                  cases s0 with
                  | list sl => simp [scanCondition, hop, hlen, hget] at h
                  | bytes sb =>
                    by_cases hhex : hexEncode sb = retirementHex
                    · have hsb : sb = retirementBytes :=
                        (hexEncode_eq_retirement sb
                          (sentinelWf_all (.bytes op) args sb stail hget hwf)).mp hhex
                      cases stail with
                      | nil =>
                        have hm : m = "" := by
                          simpa [scanCondition, hop, hlen, hget, hhex] using h.symm
                        subst hm
                        constructor
                        · simp [qualifiesSpec, hop, hlen, hget, hsb]
                        · simp [memoOfSpec, hget]
                      | cons m0 mrest =>
                        cases m0 with
                        | list ml => simp [scanCondition, hop, hlen, hget, hhex] at h
                        | bytes mb =>
                          rcases hdec : utf8Decode mb with _ | cps
                          · simp [scanCondition, hop, hlen, hget, hhex, hdec] at h
                          · have hm : m = strOfCodepoints cps := by
                              simpa [scanCondition, hop, hlen, hget, hhex, hdec]
                                using h.symm
                            subst hm
                            constructor
                            · simp [qualifiesSpec, hop, hlen, hget, hsb]
                            · simp [memoOfSpec, hget, hdec]
                    · simp [scanCondition, hop, hlen, hget, hhex] at h
          · simp [scanCondition, hop, hlen] at h
        · simp [scanCondition, hop] at h

end RunBlock

namespace RunBlock

/-- C1: For every matched puzzle, memo extraction scans the condition list
produced by re-executing the puzzle in order: the memo comes from the
first CREATE_COIN condition with at least four arguments whose fourth
element is a list (not a byte string) whose first element is the 32-byte
all-zero retirement sentinel; the memo is the UTF-8 decoding of that
list's second element when present and the empty string otherwise;
scanning stops at the first qualifying condition and yields the empty
string when none qualifies.  Stated as a refinement: whenever the scan
completes normally, its result is the one prescribed by the
specification-level extractor `memo_spec`. -/
theorem extract_memo_follows_spec (conds : List PyVal) (m : String)
    (hwf : ∀ c ∈ conds, sentinelBytesWf c = true)
    (hok : extract_memo conds = Except.ok m) :
    memo_spec conds = some m := by
  induction conds with
  | nil =>
    have hm : m = "" := by simpa [extract_memo] using hok.symm
    simp [memo_spec, hm]
  | cons c rest ih =>
    have hwfc : sentinelBytesWf c = true := hwf c (by simp)
    have hwfrest : ∀ x ∈ rest, sentinelBytesWf x = true := fun x hx => hwf x (by simp [hx])
    rcases hstep : scanCondition c with _ | m0 | e
    · have hq := scanCondition_skip c hwfc hstep
      have hok2 : extract_memo rest = Except.ok m := by
        simpa [extract_memo, hstep] using hok
      have hrest := ih hwfrest hok2
      simpa [memo_spec, List.find?_cons_of_neg, hq] using hrest
    · obtain ⟨hq, hm⟩ := scanCondition_found c m0 hwfc hstep
      have hmm : m0 = m := by simpa [extract_memo, hstep] using hok
      subst hmm
      simp only [memo_spec, List.find?_cons_of_pos _ hq]
      exact hm
    · simp [extract_memo, hstep] at hok

end RunBlock

namespace RunBlock

lemma processNPC_resolve_error (er : EngineResult) (npc : NPC) (e : ResolveError)
    (h : er.resolve npc.coin_name = Except.error e) :
    processNPC er npc = Except.error (RunError.resolveError e) := by
  simp [processNPC, h]

lemma processNPC_memo_error (er : EngineResult) (npc : NPC) (rs : ResolvedSpend)
    (pm : Bytes × Bytes × Bytes) (me : MemoError)
    (h1 : er.resolve npc.coin_name = Except.ok rs)
    (h2 : rs.puzzle_match = some pm)
    (h3 : extract_memo rs.runOutput = Except.error me) :
    processNPC er npc = Except.error (RunError.memoError me) := by
  rcases pm with ⟨a, b, c⟩
  simp [processNPC, h1, h2, h3]

lemma runNPCs_error_of_process_error (er : EngineResult) (l : List NPC) (npc : NPC)
    (e : RunError) (hmem : npc ∈ l) (herr : processNPC er npc = Except.error e) :
    ∃ e2, runNPCs er l = Except.error e2 := by
  induction l with
  | nil => simp at hmem
  | cons a rest ih =>
    rcases hp : processNPC er a with e3 | oc
    · exact ⟨e3, by simp [runNPCs, hp]⟩
    · have hmem2 : npc ∈ rest := by
        rcases List.mem_cons.mp hmem with h1 | h1
        · subst h1
          simp [hp] at herr
        · exact h1
      obtain ⟨e2, h2⟩ := ih hmem2
      rcases oc with _ | cat
      · exact ⟨e2, by simp [runNPCs, hp, h2]⟩
      · exact ⟨e2, by simp [runNPCs, hp, h2, Except.map]⟩

/-- C3: a non-null error field in the execution result raises ConsensusError
with that code; no CAT records are produced and per-coin processing is
never entered (the result is this error whatever the NPC list and the
per-coin resolution outcomes are). -/
theorem run_generator_error_aborts (er : EngineResult) (code : Nat)
    (h : er.npc_error = some code) :
    run_generator er = Except.error (RunError.consensusError code) := by
  simp [run_generator, h]

/-- C8: run_generator resolves the puzzle and solution for every NPC before
testing the CAT template, so a successful run implies every coin resolved,
and a resolution failure on any coin, matched or not, aborts the entire
run with an error. -/
theorem run_generator_resolves_every_npc (er : EngineResult) :
    (∀ cats : List CAT, run_generator er = Except.ok cats →
      ∀ npc ∈ er.npc_list, ∃ rs, er.resolve npc.coin_name = Except.ok rs)
    ∧ ∀ npc ∈ er.npc_list, ∀ e : ResolveError,
        er.resolve npc.coin_name = Except.error e →
        ∃ e2, run_generator er = Except.error e2 := by
  have habort : ∀ npc ∈ er.npc_list, ∀ e : ResolveError,
      er.resolve npc.coin_name = Except.error e →
      ∃ e2, run_generator er = Except.error e2 := by
    intro npc hmem e hres
    rcases hne : er.npc_error with _ | code
    · obtain ⟨e2, h2⟩ := runNPCs_error_of_process_error er er.npc_list npc _ hmem
        (processNPC_resolve_error er npc e hres)
      exact ⟨e2, by simp [run_generator, hne, h2]⟩
    · exact ⟨RunError.consensusError code, by simp [run_generator, hne]⟩
  refine ⟨?_, habort⟩
  intro cats hok npc hmem
  rcases hres : er.resolve npc.coin_name with e | rs
  · obtain ⟨e2, h2⟩ := habort npc hmem e hres
    rw [hok] at h2
    cases h2
  · exact ⟨rs, rfl⟩

/-- C6 as amended: when a qualifying memo payload's second element is not
valid UTF-8, the UnicodeDecodeError propagates out of run_generator and
aborts the entire run; no CAT records are produced for any coin. -/
theorem memo_decode_failure_aborts_whole_run (er : EngineResult) (npc : NPC)
    (rs : ResolvedSpend) (pm : Bytes × Bytes × Bytes)
    (hmem : npc ∈ er.npc_list)
    (hres : er.resolve npc.coin_name = Except.ok rs)
    (hpm : rs.puzzle_match = some pm)
    (hmemo : extract_memo rs.runOutput = Except.error MemoError.unicodeError) :
    ∃ e, run_generator er = Except.error e := by
  rcases hne : er.npc_error with _ | code
  · obtain ⟨e2, h2⟩ := runNPCs_error_of_process_error er er.npc_list npc _ hmem
      (processNPC_memo_error er npc rs pm MemoError.unicodeError hres hpm hmemo)
    exact ⟨e2, by simp [run_generator, hne, h2]⟩
  · exact ⟨RunError.consensusError code, by simp [run_generator, hne]⟩

end RunBlock

namespace RunBlock

lemma runNPCs_map_filter (er : EngineResult) (l : List NPC) (cats : List CAT)
    (h : runNPCs er l = Except.ok cats) :
    cats.map CAT.npc = l.filter (matchedB er) := by
  induction l generalizing cats with
  | nil =>
    have hc : cats = [] := by simpa [runNPCs] using h.symm
    simp [hc]
  | cons a rest ih =>
    rcases hres : er.resolve a.coin_name with e | rs
    · simp [runNPCs, processNPC, hres] at h
    · rcases hpm : rs.puzzle_match with _ | pm
      · have hp : processNPC er a = Except.ok none := by
          simp [processNPC, hres, hpm]
        have h2 : runNPCs er rest = Except.ok cats := by
          simpa [runNPCs, hp] using h
        have hm : matchedB er a = false := by simp [matchedB, hres, hpm]
        simp [List.filter_cons, hm, ih cats h2]
      · rcases pm with ⟨mh, tb, ip⟩
        rcases hmemo : extract_memo rs.runOutput with me | memo
        · simp [runNPCs, processNPC, hres, hpm, hmemo] at h
        · have hp : processNPC er a =
              Except.ok (some ⟨(hexEncode tb).drop 2, memo, a⟩) := by
            simp [processNPC, hres, hpm, hmemo]
          rcases hrest : runNPCs er rest with e2 | cats2
          · simp [runNPCs, hp, hrest, Except.map] at h
          · have hcats : cats = ⟨(hexEncode tb).drop 2, memo, a⟩ :: cats2 := by
              simpa [runNPCs, hp, hrest, Except.map] using h.symm
            have hm : matchedB er a = true := by simp [matchedB, hres, hpm]
            subst hcats
            simp [List.filter_cons, hm, ih cats2 hrest]

lemma runNPCs_cat_origin (er : EngineResult) (l : List NPC) (cats : List CAT)
    (h : runNPCs er l = Except.ok cats) (cat : CAT) (hc : cat ∈ cats) :
    ∃ rs mh tb ip memo, er.resolve cat.npc.coin_name = Except.ok rs ∧
      rs.puzzle_match = some (mh, tb, ip) ∧
      extract_memo rs.runOutput = Except.ok memo ∧
      cat.tail_hash = (hexEncode tb).drop 2 ∧ cat.memo = memo := by
  induction l generalizing cats with
  | nil =>
    have hcats : cats = [] := by simpa [runNPCs] using h.symm
    subst hcats
    simp at hc
  | cons a rest ih =>
    rcases hres : er.resolve a.coin_name with e | rs
    · simp [runNPCs, processNPC, hres] at h
    · rcases hpm : rs.puzzle_match with _ | pm
      · have hp : processNPC er a = Except.ok none := by
          simp [processNPC, hres, hpm]
        have h2 : runNPCs er rest = Except.ok cats := by
          simpa [runNPCs, hp] using h
        exact ih cats h2 hc
      · rcases pm with ⟨mh, tb, ip⟩
        rcases hmemo : extract_memo rs.runOutput with me | memo
        · simp [runNPCs, processNPC, hres, hpm, hmemo] at h
        · have hp : processNPC er a =
              Except.ok (some ⟨(hexEncode tb).drop 2, memo, a⟩) := by
            simp [processNPC, hres, hpm, hmemo]
          rcases hrest : runNPCs er rest with e2 | cats2
          · simp [runNPCs, hp, hrest, Except.map] at h
          · have hcats : cats = ⟨(hexEncode tb).drop 2, memo, a⟩ :: cats2 := by
              simpa [runNPCs, hp, hrest, Except.map] using h.symm
            subst hcats
            rcases List.mem_cons.mp hc with hcc | hcc
            · subst hcc
              exact ⟨rs, mh, tb, ip, memo, hres, hpm, hmemo, rfl, rfl⟩
            · exact ih cats2 hrest hcc

/-- C2: every CAT record in the output carries, as its tail_hash field, the
lowercase hex encoding of the byte value of the tail-hash program
extracted by the template match, with exactly the first two hex
characters of that encoding dropped. -/
theorem cat_tail_hash_hex_drop_two (er : EngineResult) (cats : List CAT) (cat : CAT)
    (hok : run_generator er = Except.ok cats) (hc : cat ∈ cats) :
    ∃ rs mh tb ip, er.resolve cat.npc.coin_name = Except.ok rs ∧
      rs.puzzle_match = some (mh, tb, ip) ∧
      cat.tail_hash = (hexEncode tb).drop 2 := by
  rcases hne : er.npc_error with _ | code
  · have h : runNPCs er er.npc_list = Except.ok cats := by
      simpa [run_generator, hne] using hok
    obtain ⟨rs, mh, tb, ip, memo, h1, h2, _, h4, _⟩ :=
      runNPCs_cat_origin er er.npc_list cats h cat hc
    exact ⟨rs, mh, tb, ip, h1, h2, h4⟩
  · simp [run_generator, hne] at hok

lemma processNPC_congr (er er2 : EngineResult) (npc : NPC)
    (h : resolveAgree (er.resolve npc.coin_name) (er2.resolve npc.coin_name)) :
    processNPC er npc = processNPC er2 npc := by
  rcases h1 : er.resolve npc.coin_name with e | rs <;>
    rcases h2 : er2.resolve npc.coin_name with e2 | rs2 <;>
      rw [h1, h2] at h
  · have he : e = e2 := h
    subst he
    simp [processNPC, h1, h2]
  · simp [resolveAgree] at h
  · simp [resolveAgree] at h
  · obtain ⟨hpm, hout⟩ := h
    rcases hpmv : rs.puzzle_match with _ | pm
    · have hpm2 : rs2.puzzle_match = none := by rw [← hpm, hpmv]
      simp [processNPC, h1, h2, hpmv, hpm2]
    · have hpm2 : rs2.puzzle_match = some pm := by rw [← hpm, hpmv]
      have hout2 : rs.runOutput = rs2.runOutput := hout (by simp [hpmv])
      rcases pm with ⟨mh, tb, ip⟩
      simp [processNPC, h1, h2, hpmv, hpm2, hout2]

lemma runNPCs_congr (er er2 : EngineResult) (l : List NPC)
    (h : ∀ npc ∈ l, processNPC er npc = processNPC er2 npc) :
    runNPCs er l = runNPCs er2 l := by
  induction l with
  | nil => rfl
  | cons a rest ih =>
    have ha : processNPC er a = processNPC er2 a := h a (by simp)
    have hrest := ih (fun npc hn => h npc (by simp [hn]))
    simp [runNPCs, ha, hrest]

/-- C5: on a successful run the output has exactly one CAT record per NPC
whose puzzle matched the CAT template, in execution order (the image of
the output under the npc projection is the matched-filtered NPC list),
and memo extraction never re-executes a non-matching puzzle: an engine
oracle that differs only in the run output of non-matched coins yields
the identical result. -/
theorem run_generator_matched_only (er er2 : EngineResult) (cats : List CAT)
    (herr : er.npc_error = er2.npc_error)
    (hlist : er.npc_list = er2.npc_list)
    (hagree : ∀ name : Bytes, resolveAgree (er.resolve name) (er2.resolve name))
    (hok : run_generator er = Except.ok cats) :
    cats.map CAT.npc = er.npc_list.filter (matchedB er)
      ∧ run_generator er2 = Except.ok cats := by
  have hsame : run_generator er2 = run_generator er := by
    unfold run_generator
    rw [← herr, ← hlist]
    rcases hne : er.npc_error with _ | code
    · exact runNPCs_congr er2 er er.npc_list
        (fun npc _ => (processNPC_congr er er2 npc (hagree npc.coin_name)).symm)
    · rfl
  constructor
  · rcases hne : er.npc_error with _ | code
    · exact runNPCs_map_filter er er.npc_list cats (by simpa [run_generator, hne] using hok)
    · simp [run_generator, hne] at hok
  · rw [hsame, hok]

end RunBlock

namespace RunBlock

lemma isSome_of_map {α β : Type} (f : α → β) (x : Option α) :
    (Option.map f x).isSome = x.isSome := by
  rcases x with _ | v <;> rfl

lemma optList_isSome {α : Type} (l : List (Option α))
    (h : ∀ x ∈ l, x.isSome = true) : (optList l).isSome = true := by
  induction l with
  | nil => rfl
  | cons a rest ih =>
    rcases a with _ | v
    · exact absurd (h none (by simp)) (by simp)
    · have hrest := ih (fun x hx => h x (by simp [hx]))
      rcases ho : optList rest with _ | vs
      · rw [ho] at hrest
        simp at hrest
      · simp [optList, ho]

lemma condition_list_to_dict_isSome (op : Nat) (cwas : List ConditionWithArgs) :
    (condition_list_to_dict (op, cwas)).isSome = true ↔ ∀ cwa ∈ cwas, cwa.opcode = op := by
  by_cases hall : ∀ cwa ∈ cwas, op = cwa.opcode
  · have hb : cwas.all (fun cwa => op = cwa.opcode) = true := by
      rw [List.all_eq_true]
      intro cwa hc
      exact decide_eq_true (hall cwa hc)
    simp only [condition_list_to_dict, hb, if_true, Option.isSome_some, true_iff]
    exact fun cwa hc => (hall cwa hc).symm
  · have hb : ¬ cwas.all (fun cwa => op = cwa.opcode) = true := by
      rw [List.all_eq_true]
      intro hx
      exact hall (fun cwa hc => by simpa using hx cwa hc)
    simp only [condition_list_to_dict, if_neg hb, Option.isSome_none,
      Bool.false_eq_true, false_iff]
    intro hforall
    exact hall (fun cwa hc => (hforall cwa hc).symm)

lemma npc_to_dict_isSome (npc : NPC) (h : wellGrouped npc = true) :
    (npc_to_dict npc).isSome = true := by
  unfold npc_to_dict
  rw [isSome_of_map]
  apply optList_isSome
  intro x hx
  rcases List.mem_map.mp hx with ⟨c, hc, hcx⟩
  rw [← hcx, isSome_of_map]
  rcases c with ⟨op, cwas⟩
  rw [condition_list_to_dict_isSome]
  have hg := (List.all_eq_true.mp h) _ hc
  simp only [List.all_eq_true, decide_eq_true_eq] at hg
  exact hg

/-- C7: the condition-group serializer asserts the grouping invariant (it
succeeds exactly when every ConditionWithArgs in the group carries the
group's opcode key), and on every NPC the pipeline outputs the assertion
holds, provided each NPC supplied by the execution engine satisfies the
grouping invariant of the data model (a contract of the external engine,
modelled from the spec's data-model section). -/
theorem grouping_assertion_holds (er : EngineResult) (cats : List CAT)
    (hwg : ∀ npc ∈ er.npc_list, wellGrouped npc = true)
    (hok : run_generator er = Except.ok cats) :
    (∀ (op : Nat) (cwas : List ConditionWithArgs),
        (condition_list_to_dict (op, cwas)).isSome = true ↔ ∀ cwa ∈ cwas, cwa.opcode = op)
    ∧ ∀ cat ∈ cats, (cat_to_dict cat).isSome = true := by
  refine ⟨condition_list_to_dict_isSome, ?_⟩
  intro cat hc
  have hfilter : cats.map CAT.npc = er.npc_list.filter (matchedB er) := by
    rcases hne : er.npc_error with _ | code
    · exact runNPCs_map_filter er er.npc_list cats (by simpa [run_generator, hne] using hok)
    · simp [run_generator, hne] at hok
  have hmem : cat.npc ∈ er.npc_list := by
    have h1 : cat.npc ∈ cats.map CAT.npc := List.mem_map.mpr ⟨cat, hc, rfl⟩
    rw [hfilter] at h1
    exact List.mem_of_mem_filter h1
  unfold cat_to_dict
  rw [isSome_of_map]
  exact npc_to_dict_isSome cat.npc (hwg cat.npc hmem)

/-- C10: the memo scan is partial at one edge: a CREATE_COIN condition of
at least four elements whose fourth element is the empty list is not
qualifying under the specification, yet the scan indexes the first
element of that empty list (IndexError) and aborts instead of treating
the condition as non-qualifying, whatever conditions follow. -/
theorem memo_scan_empty_fourth_list (a b : PyVal) (rest : List PyVal) :
    qualifiesSpec (PyVal.list [PyVal.bytes createCoinOpcode, a, b, PyVal.list []]) = false
    ∧ extract_memo (PyVal.list [PyVal.bytes createCoinOpcode, a, b, PyVal.list []] :: rest)
        = Except.error MemoError.indexError := by
  constructor
  · rfl
  · rfl

end RunBlock

namespace RunBlock

/-- C4: the two entry points treat an absent generator asymmetrically:
run_full_block on a block whose transactions_generator is null always
fails (with the missing-generator error when the reference programs load,
and with the load error otherwise, since loading precedes the check),
while run_generator_with_args on an empty generator hex string returns
the empty list without ever invoking the engine. -/
theorem missing_generator_asymmetry :
    (∀ (engine : Engine) (store : RefStore) (block : FullBlock),
        block.transactions_generator = none →
        ∃ e, run_full_block engine store block = Except.error e)
    ∧ ∀ (engine : Engine) (args : List GeneratorArg),
        run_generator_with_args engine (some "") args = Except.ok [] := by
  constructor
  · intro engine store block hgen
    unfold run_full_block
    rcases href : ref_list_to_args store block.transactions_generator_ref_list with e | args
    · exact ⟨e, rfl⟩
    · exact ⟨RunError.missingGenerator, by simp [hgen]⟩
  · intro engine args
    rfl

lemma ref_list_to_args_error (store : RefStore) (refs : List Nat) (h : Nat)
    (hmem : h ∈ refs) (hmiss : store h = none) :
    ∃ h0, ref_list_to_args store refs = Except.error (RunError.auxLookupError h0) := by
  induction refs with
  | nil => simp at hmem
  | cons r rest ih =>
    rcases hr : store r with _ | prog
    · exact ⟨r, by simp [ref_list_to_args, hr]⟩
    · have hmem2 : h ∈ rest := by
        rcases List.mem_cons.mp hmem with h1 | h1
        · subst h1
          rw [hmiss] at hr
          cases hr
        · exact h1
      obtain ⟨h0, h2⟩ := ih hmem2
      exact ⟨h0, by simp [ref_list_to_args, hr, h2, Except.map]⟩

/-- C9: in both run_json_block_file and run_full_block the auxiliary
reference-list programs are loaded before the absent-generator check or
execution, so a missing per-height record aborts the run with a lookup
error even when the transactions generator is absent or empty and the
run would otherwise return the empty list. -/
theorem aux_lookup_precedes_generator_check (engine : Engine) (store : RefStore)
    (refs : List Nat) (h : Nat) (hmem : h ∈ refs) (hmiss : store h = none) :
    (∀ genhex : Option String,
        ∃ h0, run_json_block_file engine store genhex refs
          = Except.error (RunError.auxLookupError h0))
    ∧ ∀ g : Option SerializedProg,
        ∃ h0, run_full_block engine store ⟨g, refs⟩
          = Except.error (RunError.auxLookupError h0) := by
  obtain ⟨h0, href⟩ := ref_list_to_args_error store refs h hmem hmiss
  constructor
  · intro genhex
    exact ⟨h0, by simp [run_json_block_file, href]⟩
  · intro g
    exact ⟨h0, by simp [run_full_block, href]⟩

end RunBlock

namespace RunBlock

/-- Witness for C1: on a concrete condition list with one non-qualifying and
one qualifying condition, the scan succeeds with memo hello and the
specification-level extractor agrees. -/
theorem extract_memo_follows_spec_witness :
    extract_memo condsW = Except.ok "hello" ∧ memo_spec condsW = some "hello" :=
  ⟨by rfl, extract_memo_follows_spec condsW "hello" (by decide) (by rfl)⟩

/-- Witness for C2: on a concrete matched coin with tail-hash program bytes
0xabcd, the emitted record's tail_hash is the hex encoding with the first
two characters dropped. -/
theorem cat_tail_hash_hex_drop_two_witness :
    ∃ rs mh tb ip,
      erW.resolve (CAT.mk ((hexEncode [171, 205]).drop 2) "" npcW1).npc.coin_name
        = Except.ok rs ∧
      rs.puzzle_match = some (mh, tb, ip) ∧
      (CAT.mk ((hexEncode [171, 205]).drop 2) "" npcW1).tail_hash
        = (hexEncode tb).drop 2 :=
  cat_tail_hash_hex_drop_two erW [CAT.mk ((hexEncode [171, 205]).drop 2) "" npcW1]
    (CAT.mk ((hexEncode [171, 205]).drop 2) "" npcW1) (by rfl) (by simp)

/-- Witness for C3: a concrete engine result carrying error code 17 makes
run_generator fail with ConsensusError 17. -/
theorem run_generator_error_aborts_witness :
    run_generator erC3 = Except.error (RunError.consensusError 17) :=
  run_generator_error_aborts erC3 17 rfl

/-- Witness for C5: on a concrete two-coin oracle the output holds exactly
the matched coin, and replacing the unmatched coin's run output (which
would raise if scanned) leaves the result unchanged. -/
theorem run_generator_matched_only_witness :
    ([CAT.mk ((hexEncode [171, 205]).drop 2) "" npcW1].map CAT.npc
        = erW5.npc_list.filter (matchedB erW5))
    ∧ run_generator erW5b
        = Except.ok [CAT.mk ((hexEncode [171, 205]).drop 2) "" npcW1] :=
  run_generator_matched_only erW5 erW5b
    [CAT.mk ((hexEncode [171, 205]).drop 2) "" npcW1] rfl rfl
    (fun name => by
      by_cases h : name = ([1] : Bytes) <;>
        simp [erW5, erW5b, resolveAgree, h, rsMatchW, rsNoMatchA, rsNoMatchB])
    (by rfl)

/-- Counterexample for C6 as stated: with a first coin whose memo payload is
invalid UTF-8 and a second coin carrying a valid memo, the run does not
produce CAT records for the other coin; it fails outright with the
decoding error. -/
theorem memo_decode_failure_counterexample :
    run_generator erC6 = Except.error (RunError.memoError MemoError.unicodeError)
    ∧ ∀ cats : List CAT, run_generator erC6 ≠ Except.ok cats := by
  have h : run_generator erC6
      = Except.error (RunError.memoError MemoError.unicodeError) := by rfl
  refine ⟨h, fun cats hcontra => ?_⟩
  rw [h] at hcontra
  cases hcontra

/-- Witness for C6 as amended: the concrete invalid-UTF-8 oracle aborts the
whole run with an error. -/
theorem memo_decode_failure_aborts_whole_run_witness :
    ∃ e, run_generator erC6 = Except.error e :=
  memo_decode_failure_aborts_whole_run erC6 npcW1 rsBadMemo ([7], [3], [8])
    (by simp [erC6]) (by rfl) (by rfl) (by rfl)

/-- Witness for C7: on a concrete run whose NPC carries a well-grouped
condition group, every emitted CAT record serializes without tripping the
grouping assertion. -/
theorem grouping_assertion_holds_witness :
    (∀ (op : Nat) (cwas : List ConditionWithArgs),
        (condition_list_to_dict (op, cwas)).isSome = true ↔ ∀ cwa ∈ cwas, cwa.opcode = op)
    ∧ ∀ cat ∈ [CAT.mk ((hexEncode [171, 205]).drop 2) "" npcW3],
        (cat_to_dict cat).isSome = true :=
  grouping_assertion_holds erW7 [CAT.mk ((hexEncode [171, 205]).drop 2) "" npcW3]
    (by decide) (by rfl)

/-- Witness for C8: a concrete oracle whose only coin fails resolution makes
the whole run fail. -/
theorem run_generator_resolves_every_npc_witness :
    ∃ e2, run_generator erC8 = Except.error e2 :=
  (run_generator_resolves_every_npc erC8).2 npcW1 (by simp [erC8])
    ResolveError.coinNotFound rfl

/-- Witness for C4: a concrete block with a null generator makes
run_full_block fail even though its reference list loads. -/
theorem missing_generator_asymmetry_witness :
    ∃ e, run_full_block engineW storeW blockW = Except.error e :=
  missing_generator_asymmetry.1 engineW storeW blockW rfl

/-- Witness for C9: with no persisted record at height 5 and a null
generator field, run_json_block_file fails with the lookup error. -/
theorem aux_lookup_precedes_generator_check_witness :
    ∃ h0, run_json_block_file engineW storeMissing none [5]
      = Except.error (RunError.auxLookupError h0) :=
  (aux_lookup_precedes_generator_check engineW storeMissing [5] 5 (by simp) rfl).1 none

end RunBlock
